import Mathlib

/-!
Shallow embedding of `src/app.py` (Behtar Zindagi PDF catalog generator).

The Python program reads a spreadsheet, normalizes its columns
(`normalize_columns`), filters rows by pasted names or URLs
(`filter_products`), and lays the filtered rows out as a paginated grid of
cards in a PDF (`generate_pdf`), with helpers `download_image_to_temp`,
`get_scaled_image_size` and `wrap_text`.

Modelling conventions:
- reportlab lengths are IEEE doubles in the source; we embed them as exact
  rationals (`mm = 72 / 25.4 = 360/127` points).  Every comparison the layout
  performs is far from its boundary, so the rational model decides every
  branch exactly as the float code does.
- Network and image-library effects are inputs of the model: each record
  carries an `ImgEnv` describing whether the download succeeded, which pixel
  dimensions the image reader reports, and whether the draw call succeeds.
- The PDF byte stream is abstracted as the ordered list of drawing operations
  (`Op`) issued on the canvas, plus page bookkeeping.
-/

namespace Catalog

/-- One product record with the normalized fields `normalize_columns`
produces and the rest of the program consumes. -/
structure Product where
  product_name : String
  price : String
  product_url : String
  image_url : String
deriving DecidableEq, Repr

/-- External outcomes for one record's image handling: whether
`download_image_to_temp` returned a path, which dimensions `Image.open`
reports inside `get_scaled_image_size` (`none` = read failure), and whether
`canvas.drawImage` succeeds. -/
structure ImgEnv where
  fetchOK : Bool
  dims : Option (Nat × Nat)
  drawOK : Bool
deriving DecidableEq, Repr

/-! ## Geometry constants (lines 82-101 of app.py) -/

/-- reportlab `mm` in points: 72 / 25.4. -/
def mmQ : ℚ := 360 / 127

/-- A4 width in points. -/
def pageWidth : ℚ := 210 * mmQ

/-- A4 height in points. -/
def pageHeight : ℚ := 297 * mmQ

/-- Source: `margin = 15 * mm`. -/
def pdfMargin : ℚ := 15 * mmQ

/-- Source: `heading_y = height - margin`. -/
def heading_y : ℚ := pageHeight - pdfMargin

/-- Source: `y_top_row = heading_y - 25`, the top of the first row of cards on a
fresh page. -/
def yTopRow0 : ℚ := heading_y - 25

/-- Source: `usable_width = width - 2 * margin`. -/
def usable_width : ℚ := pageWidth - 2 * pdfMargin

/-- Source: `col_width = usable_width / cols` with `cols = 3`. -/
def col_width : ℚ := usable_width / 3

/-- Source: `card_height = 75 * mm`. -/
def card_height : ℚ := 75 * mmQ

/-- Source: `card_w = col_width - 6`. -/
def card_w : ℚ := col_width - 6

/-- Vertical advance between rows: `card_height + 10` (line 241). -/
def rowAdvance : ℚ := card_height + 10

/-! ## Per-card geometry (lines 112-198 of app.py); `card_x`, `card_y` are
the card's lower-left corner. -/

/-- Source: `price_bar_height = 8 * mm`. -/
def price_bar_height : ℚ := 8 * mmQ

/-- Source: `price_bar_y = card_y + inner_bottom_margin` with
`inner_bottom_margin = 8`. -/
def price_bar_y (card_y : ℚ) : ℚ := card_y + 8

/-- Source: `content_top = card_y + card_h - inner_top_margin` with
`inner_top_margin = 10`. -/
def content_top (card_y : ℚ) : ℚ := card_y + card_height - 10

/-- Source: `content_bottom = price_bar_y + price_bar_height + 4`. -/
def content_bottom (card_y : ℚ) : ℚ := price_bar_y card_y + price_bar_height + 4

/-- Source: `content_height = content_top - content_bottom`. -/
def content_height (card_y : ℚ) : ℚ := content_top card_y - content_bottom card_y

/-- Source: `image_area_height = content_height * 0.55`. -/
def image_area_height (card_y : ℚ) : ℚ := content_height card_y * (55 / 100)

/-- Source: `image_area_width = card_w - 2 * inner_x_margin` with
`inner_x_margin = 6`. -/
def image_area_width : ℚ := card_w - 2 * 6

/-- Source: `image_area_x = card_x + inner_x_margin`. -/
def image_area_x (card_x : ℚ) : ℚ := card_x + 6

/-- Source: `image_area_y = content_bottom + content_height * 0.45`. -/
def image_area_y (card_y : ℚ) : ℚ := content_bottom card_y + content_height card_y * (45 / 100)

/-- Source: `card_center_x = card_x + card_w / 2`. -/
def card_center_x (card_x : ℚ) : ℚ := card_x + card_w / 2

/-- Source: `name_area_top = image_area_y - 4`. -/
def name_area_top (card_y : ℚ) : ℚ := image_area_y card_y - 4

/-- Source: `available_text_h = max(10, name_area_top - name_area_bottom)` where
`name_area_bottom = content_bottom`. -/
def available_text_h (card_y : ℚ) : ℚ := max 10 (name_area_top card_y - content_bottom card_y)

/-- Source: `max_lines = min(3, int(available_text_h // line_height))` with
`line_height = 8`. -/
def max_lines_at (card_y : ℚ) : ℕ := min 3 (Int.toNat ⌊available_text_h card_y / 8⌋)

/-- Source: `price_bar_w = card_w - 2 * inner_x_margin`. -/
def price_bar_w : ℚ := card_w - 2 * 6

/-- Source: `price_bar_x = card_x + (card_w - price_bar_w) / 2`. -/
def price_bar_x (card_x : ℚ) : ℚ := card_x + (card_w - price_bar_w) / 2

/-! ## String primitives

Python's `str.strip`, `str.split`, `str.splitlines` and `str.lower` are
embedded as executable functions on the character list of the string (the
kernel reduces these, unlike the extern/well-founded core `String`
functions).  Whitespace is `Char.isWhitespace` (space, tab, CR, LF), which
covers every character occurring in the program's data paths. -/

/-- Split a character list at every character satisfying `p` (separators are
consumed; empty pieces are kept, as in Python `str.split(sep)`). -/
def splitBy (p : Char → Bool) : List Char → List (List Char)
  | [] => [[]]
  | c :: cs =>
    match splitBy p cs with
    | [] => [[c]]
    | h :: t => if p c then [] :: h :: t else (c :: h) :: t

/-- Python `s.strip()`: drop leading and trailing whitespace. -/
def pyStrip (s : String) : String :=
  String.mk (((s.data.dropWhile Char.isWhitespace).reverse.dropWhile Char.isWhitespace).reverse)

/-- Python `s.lower()`. -/
def pyLower (s : String) : String :=
  String.mk (s.data.map Char.toLower)

/-! ## `wrap_text` (lines 49-69 of app.py) -/

/-- Python `text.split()`: split on whitespace runs, dropping empty
pieces. -/
def pyWords (text : String) : List String :=
  ((splitBy Char.isWhitespace text.data).map String.mk).filter (fun w => w ≠ "")

/-- The `for w in words` loop of `wrap_text`, with the `break` once
`len(lines) >= max_lines`; returns the `(lines, current)` pair left when the
loop exits. -/
def wrapLoop (max_len max_lines : ℕ) : List String → List String → String → List String × String
  | [], lines, current => (lines, current)
  | w :: ws, lines, current =>
    if current.length + ((if current = "" then 0 else 1) + w.length) ≤ max_len then
      let current2 := if current = "" then w else current ++ " " ++ w
      if max_lines ≤ lines.length then (lines, current2)
      else wrapLoop max_len max_lines ws lines current2
    else
      let lines2 := lines ++ [current]
      if max_lines ≤ lines2.length then (lines2, w)
      else wrapLoop max_len max_lines ws lines2 w

/-- Source: `wrap_text(text, max_len, max_lines)`: character-based word wrapping with
a maximum number of lines. -/
def wrap_text (text : String) (max_len max_lines : ℕ) : List String :=
  if text = "" then []
  else
    let r := wrapLoop max_len max_lines (pyWords text) [] ""
    if r.2 ≠ "" ∧ r.1.length < max_lines then r.1 ++ [r.2] else r.1

/-! ## `download_image_to_temp` (lines 16-30) and `get_scaled_image_size`
(lines 33-46) -/

/-- The payload of a successful HTTP image fetch (`resp.content`),
abstracted to the pixel dimensions those bytes decode to. -/
structure ImageBytes where
  pxWidth : Nat
  pxHeight : Nat
deriving DecidableEq, Repr

/-- Source: `download_image_to_temp`: on a successful request the response bytes are
written verbatim to a temp file (no transformation); on any exception the
function returns `None`.  The argument is the network outcome. -/
def download_image_to_temp (fetched : Option ImageBytes) : Option ImageBytes :=
  match fetched with
  | some content => some content
  | none => none

/-- Source: `get_scaled_image_size(path, max_w, max_h)`: read the image size and
return a width/height pair fitting in `max_w × max_h` keeping aspect ratio;
on a read failure or a zero dimension return `(max_w, max_h)`.  The `dims`
argument is what `Image.open` reports (`none` = the `except` path).  The
Python function catches every exception, so the model is a total function. -/
def get_scaled_image_size (dims : Option (Nat × Nat)) (max_w max_h : ℚ) : ℚ × ℚ :=
  match dims with
  | none => (max_w, max_h)
  | some (w, h) =>
    if w = 0 ∨ h = 0 then (max_w, max_h)
    else
      let scale := min (max_w / w) (max_h / h)
      (w * scale, h * scale)

/-! ## `normalize_columns` (lines 253-283) -/

/-- A pandas DataFrame abstracted to its column names and its rows (the row
representation is irrelevant to `normalize_columns`). -/
structure DataFrame (α : Type) where
  cols : List String
  rows : List α
deriving DecidableEq, Repr

/-- The fixed `rename_map` of `normalize_columns`. -/
def rename_map (c : String) : String :=
  if c = "Product Name" then "product_name"
  else if c = "SP" then "price"
  else if c = "Product Link" then "product_url"
  else if c = "Image Link" then "image_url"
  else c

/-- Source: `required_cols` of `normalize_columns`. -/
def required_cols : List String := ["product_name", "price", "product_url", "image_url"]

/-- Column names after stripping and renaming (lines 262-271). -/
def mappedCols {α : Type} (df : DataFrame α) : List String :=
  (df.cols.map pyStrip).map rename_map

/-- Source: `missing = [col for col in required_cols if col not in df.columns]`. -/
def missingOf {α : Type} (df : DataFrame α) : List String :=
  required_cols.filter (fun c => !((mappedCols df).contains c))

/-- Source: `normalize_columns`: strip and rename headers; if any required column is
missing, surface a diagnostic (`st.error`, modelled as the `Option String`
component) and return the zero-row slice `df.iloc[0:0]`; otherwise return
the renamed table.  No exception escapes. -/
def normalize_columns {α : Type} (df_raw : DataFrame α) : DataFrame α × Option String :=
  if (missingOf df_raw).isEmpty then ({ cols := mappedCols df_raw, rows := df_raw.rows }, none)
  else
    ({ cols := mappedCols df_raw, rows := [] },
     some ("These required columns are missing after mapping: "
       ++ String.intercalate ", " (missingOf df_raw)
       ++ ". Please check your Excel headers."))

/-! ## `filter_products` (lines 286-303) -/

/-- Python `input_text.splitlines()` (separators beyond a plain newline are
stripped away by the subsequent `.strip()` in any case). -/
def pySplitlines (s : String) : List String :=
  (splitBy (fun c => c = '\n') s.data).map String.mk

/-- Source: the list `[line.strip() for line in input_text.splitlines() if line.strip()]`. -/
def linesOf (input_text : String) : List String :=
  ((pySplitlines input_text).map pyStrip).filter (fun l => l ≠ "")

/-- Source: `filter_products(df_norm, selection_mode, input_text)`; rows of the
normalized table are `Product` records. -/
def filter_products (rows : List Product) (selection_mode : String) (input_text : String) :
    List Product :=
  let lines := linesOf input_text
  if lines.isEmpty then []
  else if selection_mode = "url" then
    rows.filter (fun p => lines.contains p.product_url)
  else
    let lower_names := lines.map (fun x => pyLower x)
    rows.filter (fun p => lower_names.contains (pyLower p.product_name))

/-! ## The layout engine `generate_pdf` (lines 72-250) -/

/-- One drawing operation issued on the reportlab canvas.  `newPage` is
`c.showPage()`; the document's byte stream is abstracted as the ordered list
of these operations. -/
inductive Op where
  | heading (title : String)
  | newPage
  | cardBorder (x y w h : ℚ)
  | image (x y w h : ℚ)
  | placeholder (x y w h : ℚ)
  | nameLine (cx y : ℚ) (s : String)
  | priceBar (x y w h : ℚ)
  | priceText (cx y : ℚ) (s : String)
deriving DecidableEq, Repr

/-- The image slot of one card (lines 144-187): draw the downloaded image
centred and scaled into the slot, or a blank white rectangle covering the
slot when there is no URL, the download failed, or the draw call raised. -/
def imageOps (r : Product) (env : ImgEnv) (card_x card_y : ℚ) : List Op :=
  if pyStrip r.image_url ≠ "" ∧ env.fetchOK then
    if env.drawOK then
      let s := get_scaled_image_size env.dims image_area_width (image_area_height card_y)
      [Op.image (image_area_x card_x + (image_area_width - s.1) / 2)
        (image_area_y card_y + (image_area_height card_y - s.2) / 2) s.1 s.2]
    else
      [Op.placeholder (image_area_x card_x) (image_area_y card_y)
        image_area_width (image_area_height card_y)]
  else
    [Op.placeholder (image_area_x card_x) (image_area_y card_y)
      image_area_width (image_area_height card_y)]

/-- The product-name lines of one card (lines 189-205): the stripped name is
wrapped to `max_len = 24` and at most `max_lines_at` lines, drawn centred,
descending by `line_height = 8` from `name_area_top`. -/
def nameOps (r : Product) (card_x card_y : ℚ) : List Op :=
  (wrap_text (pyStrip r.product_name) 24 (max_lines_at card_y)).enum.map
    (fun p => Op.nameLine (card_center_x card_x) (name_area_top card_y - p.1 * 8) p.2)

/-- The price bar of one card (lines 207-235): drawn only when `show_price`
is set and the record's price is non-empty. -/
def priceOps (r : Product) (show_price : Bool) (card_x card_y : ℚ) : List Op :=
  if show_price then
    if r.price ≠ "" then
      [Op.priceBar (price_bar_x card_x) (price_bar_y card_y) price_bar_w price_bar_height,
       Op.priceText (price_bar_x card_x + price_bar_w / 2)
         (price_bar_y card_y + price_bar_height / 2 - 3) ("Price: Rs. " ++ r.price)]
    else []
  else []

/-- All drawing operations of one card: rounded border, image slot, name
lines, optional price bar. -/
def cardOps (r : Product) (env : ImgEnv) (show_price : Bool) (card_x card_y : ℚ) : List Op :=
  Op.cardBorder card_x card_y card_w card_height ::
    (imageOps r env card_x card_y ++ nameOps r card_x card_y ++ priceOps r show_price card_x card_y)

/-- The mutable state of the `generate_pdf` loop: the current `y_top_row`,
`col_index`, number of pages begun so far, the cards drawn so far
(page number and lower-left corner, in drawing order), and the canvas
operations issued so far. -/
structure GenState where
  yTop : ℚ
  colIndex : ℕ
  pageCount : ℕ
  cards : List (ℕ × ℚ × ℚ)
  ops : List Op
deriving DecidableEq, Repr

/-- One iteration of the `for _, row in products_df.iterrows()` loop
(lines 104-241): page-break check, card drawing, column/row advance. -/
def genStep (show_price : Bool) (title : String) (st : GenState) (re : Product × ImgEnv) :
    GenState :=
  let st1 :=
    if st.colIndex = 0 ∧ st.yTop - card_height < pdfMargin then
      { st with
          yTop := yTopRow0
          colIndex := 0
          pageCount := st.pageCount + 1
          ops := st.ops ++ [Op.newPage, Op.heading title] }
    else st
  let card_x := pdfMargin + (st1.colIndex : ℚ) * col_width
  let card_y := st1.yTop - card_height
  let st2 :=
    { st1 with
        cards := st1.cards ++ [(st1.pageCount, card_x, card_y)]
        ops := st1.ops ++ cardOps re.1 re.2 show_price card_x card_y }
  if st2.colIndex + 1 = 3 then
    { st2 with colIndex := 0, yTop := st2.yTop - rowAdvance }
  else
    { st2 with colIndex := st2.colIndex + 1 }

/-- Canvas state just after `draw_heading()` on the first page
(lines 86-102). -/
def initState (title : String) : GenState :=
  { yTop := yTopRow0, colIndex := 0, pageCount := 1, cards := [], ops := [Op.heading title] }

/-- Source: `generate_pdf(products_df, show_price, title_text)`: each record is a
`Product` together with the external image outcomes for its card. -/
def generate_pdf (records : List (Product × ImgEnv)) (show_price : Bool) (title_text : String) :
    GenState :=
  records.foldl (genStep show_price title_text) (initState title_text)

/-- Intended position of the `k`-th card (0-based): 1-based page `k / 9 + 1`,
column `k % 3`, row-on-page `(k % 9) / 3`. -/
def cardPosSpec (k : ℕ) : ℕ × ℚ × ℚ :=
  (k / 9 + 1, pdfMargin + ((k % 3 : ℕ) : ℚ) * col_width,
   yTopRow0 - (((k % 9) / 3 : ℕ) : ℚ) * rowAdvance - card_height)

/-- Loop invariant of `generate_pdf` after `k` records have been
processed. -/
def GeomInv (k : ℕ) (st : GenState) : Prop :=
  st.colIndex = k % 3 ∧
  st.cards = (List.range k).map cardPosSpec ∧
  (k = 0 → st.yTop = yTopRow0 ∧ st.pageCount = 1) ∧
  (1 ≤ k →
    st.yTop = yTopRow0 - (((((k - 1) % 9 + 1) / 3 : ℕ) : ℚ)) * rowAdvance ∧
    st.pageCount = (k - 1) / 9 + 1)

/-- Tests whether the operation is part of a price bar. -/
def isPriceOp : Op → Bool
  | Op.priceBar _ _ _ _ => true
  | Op.priceText _ _ _ => true
  | _ => false

/-- Remove the price-bar operations from an operation stream. -/
def stripPrice (ops : List Op) : List Op :=
  ops.filter (fun op => !(isPriceOp op))

/-- Remove the price-bar operations from a generator state. -/
def eraseOps (st : GenState) : GenState :=
  { st with ops := stripPrice st.ops }

/-! ## Theorems -/

/-- C4: in name mode the filter keeps exactly the rows whose lower-cased
`product_name` equals the lower-case of one of the trimmed non-empty input
lines (case-insensitive exact matching, no partial matching), in original
table order; in particular input `"widget a"` matches a record named
`"Widget A"`. -/
theorem filter_products_by_name (rows : List Product) (input : String) (p : Product) :
    (p ∈ filter_products rows "name" input ↔
      p ∈ rows ∧ ∃ l ∈ linesOf input, pyLower p.product_name = pyLower l) ∧
    (filter_products rows "name" input).Sublist rows ∧
    filter_products [⟨"Widget A", "5", "u", "i"⟩] "name" "widget a"
      = [⟨"Widget A", "5", "u", "i"⟩] := by
  refine ⟨?_, ?_, by decide⟩
  case refine_2 =>
    unfold filter_products
    by_cases hE : (linesOf input).isEmpty
    · rw [if_pos hE]
      exact List.nil_sublist rows
    · rw [if_neg (by simpa using hE), if_neg (by decide : ¬ ("name" = "url"))]
      exact List.filter_sublist rows
  unfold filter_products
  by_cases hE : (linesOf input).isEmpty
  · rw [List.isEmpty_iff] at hE
    simp [hE]
  · rw [if_neg (by simpa using hE), if_neg (by decide : ¬ ("name" = "url"))]
    simp only [List.mem_filter, List.contains, List.elem_iff, List.mem_map, decide_eq_true_eq]
    constructor
    · rintro ⟨hp, l, hl, hll⟩
      exact ⟨hp, l, hl, hll.symm⟩
    · rintro ⟨hp, l, hl, hll⟩
      exact ⟨hp, l, hl, hll.symm⟩

/-- C5: in url mode the filter keeps exactly the rows whose `product_url`
exactly (case-sensitively) equals one of the trimmed non-empty input lines,
and the result is a subsequence of the original table in original order. -/
theorem filter_products_by_url (rows : List Product) (input : String) :
    (∀ p : Product, p ∈ filter_products rows "url" input ↔
      p ∈ rows ∧ p.product_url ∈ linesOf input) ∧
    (filter_products rows "url" input).Sublist rows := by
  unfold filter_products
  by_cases hE : (linesOf input).isEmpty
  · rw [List.isEmpty_iff] at hE
    simp [hE]
  · rw [if_neg (by simpa using hE), if_pos rfl]
    refine ⟨fun p => ?_, List.filter_sublist _⟩
    simp [List.mem_filter]

/-- C9: when the selection input consists only of blank (whitespace-only or
empty) lines, the filter returns zero rows, in both modes. -/
theorem filter_products_blank (rows : List Product) (mode : String) (input : String)
    (h : ∀ l ∈ pySplitlines input, pyStrip l = "") :
    filter_products rows mode input = [] := by
  have hlines : linesOf input = [] := by
    rw [linesOf, List.filter_eq_nil_iff]
    intro a ha
    rcases List.mem_map.mp ha with ⟨x, hx, rfl⟩
    simp [h x hx]
  simp [filter_products, hlines]

/-- Witness for C9 at a concrete blank input. -/
theorem filter_products_blank_w :
    (∀ l ∈ pySplitlines "  \n\t\n ", pyStrip l = "") ∧
    filter_products [⟨"A", "1", "u", "i"⟩] "url" "  \n\t\n " = [] :=
  ⟨by decide, filter_products_blank [⟨"A", "1", "u", "i"⟩] "url" "  \n\t\n " (by decide)⟩

/-- C2: when any of the four required fields is absent after header stripping
and renaming, `normalize_columns` returns a zero-row table together with a
diagnostic built from the complete list of missing fields (and returns
normally: the function is total, no fatal error). -/
theorem normalize_columns_missing {α : Type} (df : DataFrame α) (h : missingOf df ≠ []) :
    (normalize_columns df).1.rows = [] ∧
    (normalize_columns df).2 = some ("These required columns are missing after mapping: "
      ++ String.intercalate ", " (missingOf df) ++ ". Please check your Excel headers.") ∧
    (∀ c, c ∈ missingOf df ↔ c ∈ required_cols ∧ c ∉ mappedCols df) := by
  have hE : ¬ ((missingOf df).isEmpty = true) := by simpa [List.isEmpty_iff] using h
  refine ⟨?_, ?_, fun c => ?_⟩
  · simp [normalize_columns, hE]
  · simp [normalize_columns, hE]
  · simp [missingOf, List.mem_filter]

/-- Witness for C2 at a concrete table missing three required columns. -/
theorem normalize_columns_missing_w :
    (missingOf (⟨["Product Name", "Unit"], [[1, 2]]⟩ : DataFrame (List Nat)) ≠ []) ∧
    ((normalize_columns (⟨["Product Name", "Unit"], [[1, 2]]⟩ : DataFrame (List Nat))).1.rows
        = [] ∧
      (normalize_columns (⟨["Product Name", "Unit"], [[1, 2]]⟩ : DataFrame (List Nat))).2
        = some ("These required columns are missing after mapping: "
          ++ String.intercalate ", "
            (missingOf (⟨["Product Name", "Unit"], [[1, 2]]⟩ : DataFrame (List Nat)))
          ++ ". Please check your Excel headers.") ∧
      (∀ c, c ∈ missingOf (⟨["Product Name", "Unit"], [[1, 2]]⟩ : DataFrame (List Nat)) ↔
        c ∈ required_cols ∧
          c ∉ mappedCols (⟨["Product Name", "Unit"], [[1, 2]]⟩ : DataFrame (List Nat)))) :=
  ⟨by decide, normalize_columns_missing _ (by decide)⟩

/-- The scaled size returned by `get_scaled_image_size` always fits in the
requested bounds. -/
theorem get_scaled_fits (dims : Option (Nat × Nat)) (mw mh : ℚ) (hw : 0 < mw) (hh : 0 < mh) :
    (get_scaled_image_size dims mw mh).1 ≤ mw ∧ (get_scaled_image_size dims mw mh).2 ≤ mh := by
  rcases dims with _ | ⟨w, h⟩
  · simp [get_scaled_image_size]
  · by_cases hz : w = 0 ∨ h = 0
    · simp [get_scaled_image_size, hz]
    · push_neg at hz
      obtain ⟨hw0, hh0⟩ := hz
      have hwQ : (0 : ℚ) < w := by exact_mod_cast Nat.pos_of_ne_zero hw0
      have hhQ : (0 : ℚ) < h := by exact_mod_cast Nat.pos_of_ne_zero hh0
      simp only [get_scaled_image_size, if_neg (by tauto : ¬ (w = 0 ∨ h = 0))]
      constructor
      · calc (w : ℚ) * min (mw / w) (mh / h) ≤ (w : ℚ) * (mw / w) :=
              mul_le_mul_of_nonneg_left (min_le_left _ _) (le_of_lt hwQ)
          _ = mw := by field_simp
      · calc (h : ℚ) * min (mw / w) (mh / h) ≤ (h : ℚ) * (mh / h) :=
              mul_le_mul_of_nonneg_left (min_le_right _ _) (le_of_lt hhQ)
          _ = mh := by field_simp

/-- C10: `get_scaled_image_size` is total (it is a function, every branch of
the Python `try` is modelled), its result fits within `max_w × max_h`, it
preserves the aspect ratio whenever the image is readable with positive
dimensions, and on a read failure or a zero dimension it returns exactly
`(max_w, max_h)`. -/
theorem get_scaled_image_size_spec (dims : Option (Nat × Nat)) (mw mh : ℚ)
    (hw : 0 < mw) (hh : 0 < mh) :
    ((get_scaled_image_size dims mw mh).1 ≤ mw ∧ (get_scaled_image_size dims mw mh).2 ≤ mh) ∧
    (∀ w h : Nat, dims = some (w, h) → 0 < w → 0 < h →
      (get_scaled_image_size dims mw mh).1 * h = (get_scaled_image_size dims mw mh).2 * w) ∧
    (dims = none → get_scaled_image_size dims mw mh = (mw, mh)) ∧
    (∀ w h : Nat, dims = some (w, h) → w = 0 ∨ h = 0 →
      get_scaled_image_size dims mw mh = (mw, mh)) := by
  refine ⟨get_scaled_fits dims mw mh hw hh, fun w h hd hw0 hh0 => ?_, fun hd => ?_,
    fun w h hd hz => ?_⟩
  · subst hd
    simp only [get_scaled_image_size, if_neg (by omega : ¬ (w = 0 ∨ h = 0))]
    ring
  · subst hd
    rfl
  · subst hd
    simp [get_scaled_image_size, hz]

/-- Witness for C10 at a concrete landscape image in a 50 × 40 slot. -/
theorem get_scaled_image_size_spec_w :
    ((0 : ℚ) < 50 ∧ (0 : ℚ) < 40) ∧
    (((get_scaled_image_size (some (200, 100)) 50 40).1 ≤ 50 ∧
        (get_scaled_image_size (some (200, 100)) 50 40).2 ≤ 40) ∧
      (∀ w h : Nat, some (200, 100) = some (w, h) → 0 < w → 0 < h →
        (get_scaled_image_size (some (200, 100)) 50 40).1 * h
          = (get_scaled_image_size (some (200, 100)) 50 40).2 * w) ∧
      (some (200, 100) = none → get_scaled_image_size (some (200, 100)) 50 40 = (50, 40)) ∧
      (∀ w h : Nat, some (200, 100) = some (w, h) → w = 0 ∨ h = 0 →
        get_scaled_image_size (some (200, 100)) 50 40 = (50, 40))) :=
  ⟨⟨by norm_num, by norm_num⟩,
    get_scaled_image_size_spec (some (200, 100)) 50 40 (by norm_num) (by norm_num)⟩

/-- C7 counterexample: a successfully fetched 1000 × 800 image is stored by
`download_image_to_temp` with its dimensions unchanged, so the fetcher does
not bound the longest edge to 500 pixels. -/
theorem download_image_to_temp_no_pixel_bound :
    download_image_to_temp (some ⟨1000, 800⟩) = some ⟨1000, 800⟩ ∧
    ¬ (∀ c r : ImageBytes, download_image_to_temp (some c) = some r →
        max r.pxWidth r.pxHeight ≤ 500) := by
  refine ⟨rfl, fun hcl => ?_⟩
  have h := hcl ⟨1000, 800⟩ ⟨1000, 800⟩ rfl
  exact absurd h (by decide)

/-- C7 as amended: `download_image_to_temp` stores the fetched bytes
unmodified (no pixel-dimension bound is applied); the drawn size is bounded
to the image slot only at draw time, by `get_scaled_image_size`, whose result
fits within the given maximums. -/
theorem download_image_to_temp_unmodified (fetched : Option ImageBytes) :
    download_image_to_temp fetched = fetched ∧
    (∀ (dims : Option (Nat × Nat)) (mw mh : ℚ), 0 < mw → 0 < mh →
      (get_scaled_image_size dims mw mh).1 ≤ mw ∧ (get_scaled_image_size dims mw mh).2 ≤ mh) := by
  refine ⟨?_, fun dims mw mh hw hh => get_scaled_fits dims mw mh hw hh⟩
  cases fetched <;> rfl

/-- Witness for the amended C7, discharging the embedded positivity
hypotheses at a concrete slot. -/
theorem download_image_to_temp_unmodified_w :
    (get_scaled_image_size (some (800, 100)) 60 40).1 ≤ 60 ∧
    (get_scaled_image_size (some (800, 100)) 60 40).2 ≤ 40 :=
  (download_image_to_temp_unmodified none).2 (some (800, 100)) 60 40 (by norm_num) (by norm_num)

/-- Length of `current ++ " " ++ w`. -/
theorem length_append_word (current w : String) :
    (current ++ " " ++ w).length = current.length + 1 + w.length := by
  have hsp : (" " : String).length = 1 := rfl
  simp only [String.length_append, hsp]

/-- Invariant of the `wrap_text` loop: the accumulated lines never exceed
`max_lines`, and every accumulated line (and the pending `current`) is
within the character budget or is a single input word. -/
theorem wrapLoop_spec (max_len max_lines : ℕ) (allW : List String) :
    ∀ (ws lines : List String) (current : String),
      (∀ w ∈ ws, w ∈ allW) →
      lines.length < max_lines →
      (∀ l ∈ lines, l.length ≤ max_len ∨ l ∈ allW) →
      (current = "" ∨ current.length ≤ max_len ∨ current ∈ allW) →
      (wrapLoop max_len max_lines ws lines current).1.length ≤ max_lines ∧
      (∀ l ∈ (wrapLoop max_len max_lines ws lines current).1,
        l.length ≤ max_len ∨ l ∈ allW) ∧
      ((wrapLoop max_len max_lines ws lines current).2 = "" ∨
        (wrapLoop max_len max_lines ws lines current).2.length ≤ max_len ∨
        (wrapLoop max_len max_lines ws lines current).2 ∈ allW) := by
  intro ws
  induction ws with
  | nil =>
    intro lines current hws hlen hlines hcur
    exact ⟨le_of_lt hlen, hlines, hcur⟩
  | cons w ws ih =>
    intro lines current hws hlen hlines hcur
    have hwAll : w ∈ allW := hws w (by simp)
    have hwsAll : ∀ x ∈ ws, x ∈ allW := fun x hx => hws x (by simp [hx])
    simp only [wrapLoop]
    by_cases hfit : current.length + ((if current = "" then 0 else 1) + w.length) ≤ max_len
    · rw [if_pos hfit, if_neg (by omega : ¬ max_lines ≤ lines.length)]
      apply ih lines _ hwsAll hlen hlines
      by_cases hc : current = ""
      · rw [if_pos hc]
        exact Or.inr (Or.inr hwAll)
      · rw [if_neg hc]
        rw [if_neg hc] at hfit
        refine Or.inr (Or.inl ?_)
        rw [length_append_word]
        omega
    · rw [if_neg hfit]
      have hcurOK : current.length ≤ max_len ∨ current ∈ allW := by
        rcases hcur with hc | hc
        · left
          simp [hc]
        · exact hc
      by_cases hbreak : max_lines ≤ (lines ++ [current]).length
      · rw [if_pos hbreak]
        refine ⟨by simp; omega, ?_, Or.inr (Or.inr hwAll)⟩
        intro l hl
        rcases List.mem_append.mp hl with h1 | h2
        · exact hlines l h1
        · rw [List.mem_singleton.mp h2]
          exact hcurOK
      · rw [if_neg hbreak]
        apply ih _ _ hwsAll (by omega)
        · intro l hl
          rcases List.mem_append.mp hl with h1 | h2
          · exact hlines l h1
          · rw [List.mem_singleton.mp h2]
            exact hcurOK
        · exact Or.inr (Or.inr hwAll)

/-- C6 counterexample: a single 29-character word blows the 24-character
budget: `wrap_text` emits it as an (over-long) line of its own, preceded by
an empty line, instead of truncating it. -/
theorem wrap_text_overflow :
    wrap_text "abcdefghijklmnopqrstuvwxyzabc" 24 3
      = ["", "abcdefghijklmnopqrstuvwxyzabc"] ∧
    ¬ (∀ l ∈ wrap_text "abcdefghijklmnopqrstuvwxyzabc" 24 3, l.length ≤ 24) := by
  exact ⟨by decide, by decide⟩

/-- C6 as amended: the number of emitted lines never exceeds the maximum
line count (which is at least 1 at the call site), words beyond the line
limit are dropped, and every emitted line respects the character budget
except that a single input word longer than the budget is emitted as an
over-long line of its own. -/
theorem wrap_text_bounds (text : String) (max_len max_lines : ℕ) (h : 1 ≤ max_lines) :
    (wrap_text text max_len max_lines).length ≤ max_lines ∧
    ∀ l ∈ wrap_text text max_len max_lines, l.length ≤ max_len ∨ l ∈ pyWords text := by
  by_cases ht : text = ""
  · rw [wrap_text, if_pos ht]
    simp
  · have main := wrapLoop_spec max_len max_lines (pyWords text) (pyWords text) [] ""
      (fun w hw => hw) (by simp only [List.length_nil]; omega) (by simp) (Or.inl rfl)
    obtain ⟨h1, h2, h3⟩ := main
    rw [wrap_text, if_neg ht]
    by_cases hap : (wrapLoop max_len max_lines (pyWords text) [] "").2 ≠ "" ∧
        (wrapLoop max_len max_lines (pyWords text) [] "").1.length < max_lines
    · rw [if_pos hap]
      refine ⟨by simp; omega, ?_⟩
      intro l hl
      rcases List.mem_append.mp hl with hh | hh
      · exact h2 l hh
      · rw [List.mem_singleton.mp hh]
        rcases h3 with hc | hc
        · exact absurd hc hap.1
        · exact hc
    · rw [if_neg hap]
      exact ⟨h1, h2⟩

/-- Witness for the amended C6 at the call-site parameters. -/
theorem wrap_text_bounds_w :
    1 ≤ 3 ∧
    ((wrap_text "hello world from the catalog" 24 3).length ≤ 3 ∧
      ∀ l ∈ wrap_text "hello world from the catalog" 24 3,
        l.length ≤ 24 ∨ l ∈ pyWords "hello world from the catalog") :=
  ⟨by decide, wrap_text_bounds "hello world from the catalog" 24 3 (by decide)⟩

/-- A row whose index on the page is at most 2 fits above the bottom
margin: the page-break test is negative. -/
theorem row_fits (j : ℕ) (hj : j < 3) :
    pdfMargin ≤ yTopRow0 - (j : ℚ) * rowAdvance - card_height := by
  interval_cases j <;>
    norm_num [yTopRow0, heading_y, pageHeight, pdfMargin, mmQ, card_height, rowAdvance]

/-- A fourth row does not fit: the page-break test is positive. -/
theorem row_overflow : yTopRow0 - (3 : ℚ) * rowAdvance - card_height < pdfMargin := by
  norm_num [yTopRow0, heading_y, pageHeight, pdfMargin, mmQ, card_height, rowAdvance]

/-- Projections of `genStep` when the page-break test fires. -/
theorem genStep_break_proj (sp : Bool) (title : String) (re : Product × ImgEnv) (st : GenState)
    (hc : st.colIndex = 0 ∧ st.yTop - card_height < pdfMargin) :
    (genStep sp title st re).yTop = yTopRow0 ∧
    (genStep sp title st re).colIndex = 1 ∧
    (genStep sp title st re).pageCount = st.pageCount + 1 ∧
    (genStep sp title st re).cards
      = st.cards ++ [(st.pageCount + 1, pdfMargin, yTopRow0 - card_height)] := by
  obtain ⟨h1, h2⟩ := hc
  simp [genStep, h1, h2]

/-- Projections of `genStep` when the page-break test does not fire and the
card completes a row (column index 2). -/
theorem genStep_wrap_proj (sp : Bool) (title : String) (re : Product × ImgEnv) (st : GenState)
    (hc : ¬ (st.colIndex = 0 ∧ st.yTop - card_height < pdfMargin)) (hw : st.colIndex = 2) :
    (genStep sp title st re).yTop = st.yTop - rowAdvance ∧
    (genStep sp title st re).colIndex = 0 ∧
    (genStep sp title st re).pageCount = st.pageCount ∧
    (genStep sp title st re).cards
      = st.cards ++ [(st.pageCount, pdfMargin + (2 : ℚ) * col_width, st.yTop - card_height)] := by
  simp [genStep, hc, hw]

/-- Projections of `genStep` when the page-break test does not fire and the
card does not complete a row. -/
theorem genStep_stay_proj (sp : Bool) (title : String) (re : Product × ImgEnv) (st : GenState)
    (hc : ¬ (st.colIndex = 0 ∧ st.yTop - card_height < pdfMargin)) (hw : st.colIndex ≠ 2) :
    (genStep sp title st re).yTop = st.yTop ∧
    (genStep sp title st re).colIndex = st.colIndex + 1 ∧
    (genStep sp title st re).pageCount = st.pageCount ∧
    (genStep sp title st re).cards
      = st.cards ++ [(st.pageCount, pdfMargin + (st.colIndex : ℚ) * col_width,
          st.yTop - card_height)] := by
  have hw3 : ¬ (st.colIndex + 1 = 3) := by omega
  simp [genStep, hc, hw3]

/-- The invariant `GeomInv` is preserved by one step of the layout loop. -/
theorem genStep_inv (sp : Bool) (title : String) (re : Product × ImgEnv) (k : ℕ) (st : GenState)
    (h : GeomInv k st) : GeomInv (k + 1) (genStep sp title st re) := by
  obtain ⟨hcol, hcards, h0, h1⟩ := h
  have hbreak_iff : (st.colIndex = 0 ∧ st.yTop - card_height < pdfMargin) ↔
      (1 ≤ k ∧ k % 9 = 0) := by
    constructor
    · rintro ⟨hc0, hlt⟩
      rcases Nat.eq_zero_or_pos k with hk | hk
      · exfalso
        have hy : st.yTop = yTopRow0 := (h0 hk).1
        have hf := row_fits 0 (by norm_num)
        rw [hy] at hlt
        push_cast at hf
        linarith
      · refine ⟨hk, ?_⟩
        by_contra hne
        have hy := (h1 hk).1
        have hj : ((k - 1) % 9 + 1) / 3 < 3 := by omega
        have hf := row_fits (((k - 1) % 9 + 1) / 3) hj
        rw [hy] at hlt
        linarith
    · rintro ⟨hk, hk9⟩
      have hy := (h1 hk).1
      have hs : (k - 1) % 9 + 1 = 9 := by omega
      refine ⟨by rw [hcol]; omega, ?_⟩
      rw [hy, hs]
      have hov := row_overflow
      norm_num at hov ⊢
      linarith
  by_cases hbr : 1 ≤ k ∧ k % 9 = 0
  · obtain ⟨hy, hc2, hp, hcd⟩ := genStep_break_proj sp title re st (hbreak_iff.mpr hbr)
    have hpc := (h1 hbr.1).2
    have hk3 : k % 3 = 0 := by omega
    have hk9 : k % 9 = 0 := hbr.2
    refine ⟨by rw [hc2]; omega, ?_, fun hk' => absurd hk' (Nat.succ_ne_zero k), fun _ => ?_⟩
    · rw [hcd, hcards, List.range_succ, List.map_append]
      congr 1
      simp only [List.map_cons, List.map_nil, cardPosSpec, hk3, hk9, List.cons.injEq, and_true,
        Prod.mk.injEq]
      refine ⟨by omega, by norm_num, by norm_num⟩
    · refine ⟨?_, by rw [hp, hpc]; omega⟩
      rw [hy]
      have hz : ((k + 1 - 1) % 9 + 1) / 3 = 0 := by omega
      rw [hz]
      norm_num
  · have hcns : ¬ (st.colIndex = 0 ∧ st.yTop - card_height < pdfMargin) :=
      fun hx => hbr (hbreak_iff.mp hx)
    have hsplit : k = 0 ∨ (1 ≤ k ∧ k % 9 ≠ 0) := by omega
    have hyT : st.yTop = yTopRow0 - (((k % 9) / 3 : ℕ) : ℚ) * rowAdvance := by
      rcases hsplit with hk | ⟨hk, hk9⟩
      · rw [(h0 hk).1, hk]
        norm_num
      · rw [(h1 hk).1]
        have hsd : ((k - 1) % 9 + 1) / 3 = (k % 9) / 3 := by omega
        rw [hsd]
    have hpC : st.pageCount = k / 9 + 1 := by
      rcases hsplit with hk | ⟨hk, hk9⟩
      · rw [(h0 hk).2, hk]
      · rw [(h1 hk).2]
        omega
    by_cases hw : st.colIndex = 2
    · obtain ⟨hy, hc2, hp, hcd⟩ := genStep_wrap_proj sp title re st hcns hw
      have hk3 : k % 3 = 2 := by omega
      refine ⟨by rw [hc2]; omega, ?_, fun hk' => absurd hk' (Nat.succ_ne_zero k), fun _ => ?_⟩
      · rw [hcd, hcards, List.range_succ, List.map_append]
        congr 1
        simp only [List.map_cons, List.map_nil, cardPosSpec, hk3, List.cons.injEq, and_true,
          Prod.mk.injEq]
        refine ⟨by rw [hpC], by norm_num, by rw [hyT]⟩
      · refine ⟨?_, by rw [hp, hpC]; omega⟩
        rw [hy, hyT]
        have hz : ((k + 1 - 1) % 9 + 1) / 3 = (k % 9) / 3 + 1 := by omega
        rw [hz]
        push_cast
        ring
    · obtain ⟨hy, hc2, hp, hcd⟩ := genStep_stay_proj sp title re st hcns hw
      have hk3 : k % 3 ≠ 2 := by omega
      refine ⟨by rw [hc2, hcol]; omega, ?_, fun hk' => absurd hk' (Nat.succ_ne_zero k), fun _ => ?_⟩
      · rw [hcd, hcards, List.range_succ, List.map_append]
        congr 1
        simp only [List.map_cons, List.map_nil, cardPosSpec, List.cons.injEq, and_true,
          Prod.mk.injEq]
        refine ⟨by rw [hpC], by rw [hcol], by rw [hyT]⟩
      · refine ⟨?_, by rw [hp, hpC]; omega⟩
        rw [hy, hyT]
        have hz : ((k + 1 - 1) % 9 + 1) / 3 = (k % 9) / 3 := by omega
        rw [hz]

/-- The invariant holds after folding the layout step over any record
list. -/
theorem foldl_inv (sp : Bool) (title : String) :
    ∀ (rs : List (Product × ImgEnv)) (k : ℕ) (st : GenState),
      GeomInv k st → GeomInv (k + rs.length) (rs.foldl (genStep sp title) st) := by
  intro rs
  induction rs with
  | nil =>
    intro k st h
    simpa using h
  | cons r rs ih =>
    intro k st h
    have h2 := ih (k + 1) (genStep sp title st r) (genStep_inv sp title r k st h)
    rw [List.length_cons, List.foldl_cons,
      show k + (rs.length + 1) = k + 1 + rs.length from by omega]
    exact h2

/-- The invariant holds at the initial canvas state. -/
theorem initState_inv (title : String) : GeomInv 0 (initState title) :=
  ⟨rfl, rfl, fun _ => ⟨rfl, rfl⟩, fun h => absurd h (by omega)⟩

/-- C1: for a non-empty filtered record sequence of size N, the document
contains exactly one card per record, in input order, at column `k % 3`
(left-to-right), row `(k % 9) / 3` (top-to-bottom) of page `k / 9 + 1` for
the k-th record, and the page count is `⌈N / 9⌉ = (N + 8) / 9` with
9 = 3 columns × 3 rows; the 3 rows per page are derived from the available
page height (rows 0-2 fit above the bottom margin, a fourth does not). -/
theorem generate_pdf_layout (records : List (Product × ImgEnv)) (sp : Bool) (title : String)
    (h : 1 ≤ records.length) :
    (generate_pdf records sp title).cards = (List.range records.length).map cardPosSpec ∧
    (generate_pdf records sp title).pageCount = (records.length + 8) / 9 ∧
    (∀ j : ℕ, j < 3 → pdfMargin ≤ yTopRow0 - (j : ℚ) * rowAdvance - card_height) ∧
    yTopRow0 - (3 : ℚ) * rowAdvance - card_height < pdfMargin := by
  have hinv := foldl_inv sp title records 0 (initState title) (initState_inv title)
  rw [Nat.zero_add] at hinv
  obtain ⟨hcol, hcards, h0, h1⟩ := hinv
  refine ⟨hcards, ?_, row_fits, row_overflow⟩
  rw [show (generate_pdf records sp title).pageCount
      = (records.foldl (genStep sp title) (initState title)).pageCount from rfl, (h1 h).2]
  omega

/-- Witness for C1 at a concrete singleton record list. -/
theorem generate_pdf_layout_w :
    1 ≤ [((⟨"A", "1", "u", "i"⟩ : Product), (⟨false, none, false⟩ : ImgEnv))].length ∧
    ((generate_pdf [(⟨"A", "1", "u", "i"⟩, ⟨false, none, false⟩)] true "T").cards
        = (List.range
            [((⟨"A", "1", "u", "i"⟩ : Product), (⟨false, none, false⟩ : ImgEnv))].length).map
            cardPosSpec ∧
      (generate_pdf [(⟨"A", "1", "u", "i"⟩, ⟨false, none, false⟩)] true "T").pageCount
        = ([((⟨"A", "1", "u", "i"⟩ : Product),
            (⟨false, none, false⟩ : ImgEnv))].length + 8) / 9 ∧
      (∀ j : ℕ, j < 3 → pdfMargin ≤ yTopRow0 - (j : ℚ) * rowAdvance - card_height) ∧
      yTopRow0 - (3 : ℚ) * rowAdvance - card_height < pdfMargin) :=
  ⟨by decide, generate_pdf_layout [(⟨"A", "1", "u", "i"⟩, ⟨false, none, false⟩)] true "T"
    (by decide)⟩

/-- C3: when a record's image fetch or image draw fails, its card consists of
the border, a blank placeholder rectangle occupying exactly the image slot,
and the unchanged name and price operations; and generation never aborts:
every record yields exactly one card whatever the image outcomes are. -/
theorem card_image_failure (r : Product) (env : ImgEnv) (sp : Bool) (x y : ℚ)
    (h : env.fetchOK = false ∨ env.drawOK = false) :
    cardOps r env sp x y =
      Op.cardBorder x y card_w card_height ::
        (Op.placeholder (image_area_x x) (image_area_y y) image_area_width
            (image_area_height y) ::
          (nameOps r x y ++ priceOps r sp x y)) ∧
    ∀ (records : List (Product × ImgEnv)) (title : String),
      (generate_pdf records sp title).cards.length = records.length := by
  constructor
  · have himg : imageOps r env x y =
        [Op.placeholder (image_area_x x) (image_area_y y) image_area_width
          (image_area_height y)] := by
      rcases h with hf | hd
      · rw [imageOps, if_neg]
        rintro ⟨-, hfd⟩
        rw [hf] at hfd
        exact Bool.false_ne_true hfd
      · by_cases hf2 : pyStrip r.image_url ≠ "" ∧ env.fetchOK
        · rw [imageOps, if_pos hf2, if_neg]
          rw [hd]
          exact Bool.false_ne_true
        · rw [imageOps, if_neg hf2]
    rw [cardOps, himg]
    rfl
  · intro records title
    have hinv := foldl_inv sp title records 0 (initState title) (initState_inv title)
    rw [Nat.zero_add] at hinv
    rw [show (generate_pdf records sp title).cards
        = (records.foldl (genStep sp title) (initState title)).cards from rfl, hinv.2.1]
    simp

/-- Witness for C3 at a concrete record whose download failed. -/
theorem card_image_failure_w :
    ((⟨false, none, true⟩ : ImgEnv).fetchOK = false ∨
      (⟨false, none, true⟩ : ImgEnv).drawOK = false) ∧
    (cardOps ⟨"A", "1", "u", "img"⟩ ⟨false, none, true⟩ true 100 400 =
      Op.cardBorder 100 400 card_w card_height ::
        (Op.placeholder (image_area_x 100) (image_area_y 400) image_area_width
            (image_area_height 400) ::
          (nameOps ⟨"A", "1", "u", "img"⟩ 100 400 ++
            priceOps ⟨"A", "1", "u", "img"⟩ true 100 400)) ∧
    ∀ (records : List (Product × ImgEnv)) (title : String),
      (generate_pdf records true title).cards.length = records.length) :=
  ⟨Or.inl rfl,
    card_image_failure ⟨"A", "1", "u", "img"⟩ ⟨false, none, true⟩ true 100 400 (Or.inl rfl)⟩

/-- No operation of an image slot is a price operation. -/
theorem isPriceOp_imageOps (r : Product) (env : ImgEnv) (x y : ℚ) :
    ∀ op ∈ imageOps r env x y, isPriceOp op = false := by
  intro op hop
  rw [imageOps] at hop
  by_cases c1 : pyStrip r.image_url ≠ "" ∧ env.fetchOK
  · rw [if_pos c1] at hop
    by_cases c2 : env.drawOK = true
    · rw [if_pos c2] at hop
      rw [List.mem_singleton.mp hop]
      rfl
    · rw [if_neg c2] at hop
      rw [List.mem_singleton.mp hop]
      rfl
  · rw [if_neg c1] at hop
    rw [List.mem_singleton.mp hop]
    rfl

/-- No name-line operation is a price operation. -/
theorem isPriceOp_nameOps (r : Product) (x y : ℚ) :
    ∀ op ∈ nameOps r x y, isPriceOp op = false := by
  intro op hop
  rcases List.mem_map.mp hop with ⟨p, -, rfl⟩
  rfl

/-- Every operation of a price bar is a price operation. -/
theorem isPriceOp_priceOps (r : Product) (sp : Bool) (x y : ℚ) :
    ∀ op ∈ priceOps r sp x y, isPriceOp op = true := by
  intro op hop
  cases sp
  · exact absurd hop (List.not_mem_nil op)
  · rw [priceOps] at hop
    by_cases hp : r.price ≠ ""
    · rw [if_pos hp] at hop
      rcases List.mem_cons.mp hop with h1 | h1
      · rw [h1]
        rfl
      · rw [List.mem_singleton.mp h1]
        rfl
    · rw [if_neg hp] at hop
      exact absurd hop (List.not_mem_nil op)

/-- The function `stripPrice` distributes over concatenation. -/
theorem stripPrice_append (a b : List Op) :
    stripPrice (a ++ b) = stripPrice a ++ stripPrice b :=
  List.filter_append _ _

/-- The function `stripPrice` leaves a list without price operations unchanged. -/
theorem stripPrice_of_no_price (l : List Op) (h : ∀ op ∈ l, isPriceOp op = false) :
    stripPrice l = l :=
  List.filter_eq_self.mpr (fun op hop => by rw [h op hop]; rfl)

/-- With `show_price = false` the price bar draws nothing. -/
theorem priceOps_false (r : Product) (x y : ℚ) : priceOps r false x y = [] := rfl

/-- The function `stripPrice` keeps a leading card border. -/
theorem stripPrice_cons_border (x y w h : ℚ) (l : List Op) :
    stripPrice (Op.cardBorder x y w h :: l) = Op.cardBorder x y w h :: stripPrice l := by
  have hb : isPriceOp (Op.cardBorder x y w h) = false := rfl
  simp [stripPrice, List.filter_cons, hb]

/-- Stripping the price operations from a card gives exactly the card drawn
with `show_price = false`. -/
theorem stripPrice_cardOps (r : Product) (env : ImgEnv) (sp : Bool) (x y : ℚ) :
    stripPrice (cardOps r env sp x y) = cardOps r env false x y := by
  have h1 : stripPrice (imageOps r env x y) = imageOps r env x y :=
    stripPrice_of_no_price _ (isPriceOp_imageOps r env x y)
  have h2 : stripPrice (nameOps r x y) = nameOps r x y :=
    stripPrice_of_no_price _ (isPriceOp_nameOps r x y)
  have h3 : stripPrice (priceOps r sp x y) = [] := by
    rw [stripPrice, List.filter_eq_nil_iff]
    intro op hop
    simp [isPriceOp_priceOps r sp x y op hop]
  rw [cardOps, cardOps, priceOps_false, List.append_nil, stripPrice_cons_border,
    stripPrice_append, stripPrice_append, h1, h2, h3, List.append_nil]

/-- Two generator states with equal components are equal. -/
theorem GenState.ext' {a b : GenState} (h1 : a.yTop = b.yTop) (h2 : a.colIndex = b.colIndex)
    (h3 : a.pageCount = b.pageCount) (h4 : a.cards = b.cards) (h5 : a.ops = b.ops) : a = b := by
  cases a
  cases b
  simp only at h1 h2 h3 h4 h5
  rw [h1, h2, h3, h4, h5]

/-- Operation stream of `genStep` when the page-break test fires. -/
theorem genStep_ops_break (sp : Bool) (title : String) (re : Product × ImgEnv) (st : GenState)
    (hc : st.colIndex = 0 ∧ st.yTop - card_height < pdfMargin) :
    (genStep sp title st re).ops = st.ops ++ [Op.newPage, Op.heading title]
      ++ cardOps re.1 re.2 sp pdfMargin (yTopRow0 - card_height) := by
  obtain ⟨h1, h2⟩ := hc
  simp [genStep, h1, h2]

/-- Operation stream of `genStep` when the page-break test does not fire. -/
theorem genStep_ops_nobreak (sp : Bool) (title : String) (re : Product × ImgEnv) (st : GenState)
    (hc : ¬ (st.colIndex = 0 ∧ st.yTop - card_height < pdfMargin)) :
    (genStep sp title st re).ops = st.ops
      ++ cardOps re.1 re.2 sp (pdfMargin + (st.colIndex : ℚ) * col_width)
        (st.yTop - card_height) := by
  by_cases hw : st.colIndex + 1 = 3 <;> simp [genStep, hc, hw]

/-- One layout step with `show_price = false` simulates one step with
`show_price = true` followed by price stripping. -/
theorem genStep_strip (title : String) (re : Product × ImgEnv) (st : GenState) :
    genStep false title (eraseOps st) re = eraseOps (genStep true title st re) := by
  have hnp : stripPrice [Op.newPage, Op.heading title] = [Op.newPage, Op.heading title] := by
    apply stripPrice_of_no_price
    intro op hop
    rcases List.mem_cons.mp hop with h1 | h1
    · rw [h1]
      rfl
    · rw [List.mem_singleton.mp h1]
      rfl
  by_cases hc : st.colIndex = 0 ∧ st.yTop - card_height < pdfMargin
  · have hcE : (eraseOps st).colIndex = 0 ∧ (eraseOps st).yTop - card_height < pdfMargin := hc
    obtain ⟨by1, bc1, bp1, bcd1⟩ := genStep_break_proj false title re (eraseOps st) hcE
    obtain ⟨by2, bc2, bp2, bcd2⟩ := genStep_break_proj true title re st hc
    have bo1 := genStep_ops_break false title re (eraseOps st) hcE
    have bo2 := genStep_ops_break true title re st hc
    apply GenState.ext'
    · show _ = (genStep true title st re).yTop
      rw [by1, by2]
    · show _ = (genStep true title st re).colIndex
      rw [bc1, bc2]
    · show _ = (genStep true title st re).pageCount
      rw [bp1, bp2]
      rfl
    · show _ = (genStep true title st re).cards
      rw [bcd1, bcd2]
      rfl
    · rw [bo1,
        show (eraseOps (genStep true title st re)).ops
          = stripPrice (genStep true title st re).ops from rfl,
        bo2, stripPrice_append, stripPrice_append, hnp, stripPrice_cardOps]
      rfl
  · have hcE : ¬ ((eraseOps st).colIndex = 0 ∧ (eraseOps st).yTop - card_height < pdfMargin) := hc
    have bo1 := genStep_ops_nobreak false title re (eraseOps st) hcE
    have bo2 := genStep_ops_nobreak true title re st hc
    by_cases hw : st.colIndex = 2
    · have hwE : (eraseOps st).colIndex = 2 := hw
      obtain ⟨by1, bc1, bp1, bcd1⟩ := genStep_wrap_proj false title re (eraseOps st) hcE hwE
      obtain ⟨by2, bc2, bp2, bcd2⟩ := genStep_wrap_proj true title re st hc hw
      apply GenState.ext'
      · show _ = (genStep true title st re).yTop
        rw [by1, by2]
        rfl
      · show _ = (genStep true title st re).colIndex
        rw [bc1, bc2]
      · show _ = (genStep true title st re).pageCount
        rw [bp1, bp2]
        rfl
      · show _ = (genStep true title st re).cards
        rw [bcd1, bcd2]
        rfl
      · rw [bo1,
          show (eraseOps (genStep true title st re)).ops
            = stripPrice (genStep true title st re).ops from rfl,
          bo2, stripPrice_append, stripPrice_cardOps]
        rfl
    · have hwE : (eraseOps st).colIndex ≠ 2 := hw
      obtain ⟨by1, bc1, bp1, bcd1⟩ := genStep_stay_proj false title re (eraseOps st) hcE hwE
      obtain ⟨by2, bc2, bp2, bcd2⟩ := genStep_stay_proj true title re st hc hw
      apply GenState.ext'
      · show _ = (genStep true title st re).yTop
        rw [by1, by2]
        rfl
      · show _ = (genStep true title st re).colIndex
        rw [bc1, bc2]
        rfl
      · show _ = (genStep true title st re).pageCount
        rw [bp1, bp2]
        rfl
      · show _ = (genStep true title st re).cards
        rw [bcd1, bcd2]
        rfl
      · rw [bo1,
          show (eraseOps (genStep true title st re)).ops
            = stripPrice (genStep true title st re).ops from rfl,
          bo2, stripPrice_append, stripPrice_cardOps]
        rfl

/-- Generation with `show_price = false` is generation with
`show_price = true` followed by price stripping. -/
theorem generate_strip (records : List (Product × ImgEnv)) (title : String) :
    generate_pdf records false title = eraseOps (generate_pdf records true title) := by
  have hgen : ∀ (rs : List (Product × ImgEnv)) (st : GenState),
      rs.foldl (genStep false title) (eraseOps st)
        = eraseOps (rs.foldl (genStep true title) st) := by
    intro rs
    induction rs with
    | nil => intro st; rfl
    | cons r rs ih =>
      intro st
      rw [List.foldl_cons, List.foldl_cons, genStep_strip, ih]
  have hinit : eraseOps (initState title) = initState title := rfl
  rw [show generate_pdf records false title
      = records.foldl (genStep false title) (initState title) from rfl,
    show generate_pdf records true title
      = records.foldl (genStep true title) (initState title) from rfl]
  nth_rewrite 1 [← hinit]
  rw [hgen]

/-- C8: the two documents produced for one generation request differ only in
the price tags: the no-price document is exactly the with-price document
with its price operations removed (so heading, card borders, images,
placeholders, name lines, page breaks and all bookkeeping coincide), the
no-price document contains no price operation at all, and a card of the
with-price document carries price operations exactly when the record's
price is non-empty. -/
theorem generate_pdf_price_only_diff (records : List (Product × ImgEnv)) (title : String) :
    generate_pdf records false title = eraseOps (generate_pdf records true title) ∧
    (∀ op ∈ (generate_pdf records false title).ops, isPriceOp op = false) ∧
    (∀ (r : Product) (env : ImgEnv) (x y : ℚ),
      (cardOps r env true x y).filter (fun op => isPriceOp op) =
        if r.price = "" then []
        else [Op.priceBar (price_bar_x x) (price_bar_y y) price_bar_w price_bar_height,
          Op.priceText (price_bar_x x + price_bar_w / 2)
            (price_bar_y y + price_bar_height / 2 - 3) ("Price: Rs. " ++ r.price)]) := by
  refine ⟨generate_strip records title, ?_, ?_⟩
  · intro op hop
    rw [generate_strip records title] at hop
    have hop2 : op ∈ stripPrice (generate_pdf records true title).ops := hop
    rw [stripPrice] at hop2
    have hmem := List.of_mem_filter hop2
    simpa using hmem
  · intro r env x y
    have hb : isPriceOp (Op.cardBorder x y card_w card_height) = false := rfl
    have h1 : (imageOps r env x y).filter (fun op => isPriceOp op) = [] :=
      List.filter_eq_nil_iff.mpr
        (fun op hop => by simp [isPriceOp_imageOps r env x y op hop])
    have h2 : (nameOps r x y).filter (fun op => isPriceOp op) = [] :=
      List.filter_eq_nil_iff.mpr
        (fun op hop => by simp [isPriceOp_nameOps r x y op hop])
    have h3 : (priceOps r true x y).filter (fun op => isPriceOp op) = priceOps r true x y :=
      List.filter_eq_self.mpr (fun op hop => isPriceOp_priceOps r true x y op hop)
    rw [cardOps]
    simp only [List.filter_cons, List.filter_append, hb, h1, h2, h3, Bool.false_eq_true,
      if_false, List.nil_append]
    by_cases hp : r.price = ""
    · simp [priceOps, hp]
    · simp [priceOps, hp]

end Catalog
